import Mathlib

/-!
Verification of the weaviate-studio sandbox population scripts
(`populate.py`, `populate_advanced.py`, `populate_github_data.py`).

The scripts are sequential, single-threaded glue code: connect to a
database service, probe readiness with a bounded retry loop, drop and
recreate a fixed family of collections, insert a fixed batch of records
(capturing the identifiers returned by successful inserts so that later
records can reference them), and finally run read-side verification
queries.

The embedding below models a run of each script as a pure function from
the outcomes of its external calls (create success, per-record insert
success, HTTP fetch success, service readiness) to the trace of events
it produces and the exit code it returns.  Identifiers assigned by the
external service are modelled by a counter threaded through the run, so
that "the identifier returned by an earlier insert" is expressible.
-/

/-- Collection names (the scripts use plain strings). -/
abbrev CollName := String

/-- One observable event of a script run: a collection creation attempt
(succeeding or raising), a record insert attempt (succeeding with a fresh
identifier, or raising inside the per-record `try`), or a reference-lookup
error raised while building a record's reference mapping (before the
insert call is made). -/
inductive Ev where
  | createOk (c : CollName)
  | createFail (c : CollName)
  | insOk (c : CollName) (id : Nat) (refs : List (CollName × Nat))
  | insFail (c : CollName) (refs : List (CollName × Nat))
  | refErr (c : CollName)
  deriving Repr, DecidableEq

/-- The positional reference choice from the book/review insert loops:
`ids[i] if i < len(ids) else ids[0]`.  Out-of-range Python indexing raises,
which is modelled by `none` (only possible here when `ids` is empty). -/
def pick (ids : List Nat) (i : Nat) : Option Nat :=
  if i < ids.length then ids[i]? else ids[0]?

/-- The reference-name to target-collection mapping declared by the
`ReferenceProperty(name=..., target_collection=...)` schema definitions. -/
def refTargetOfName (n : String) : CollName :=
  if n = "writtenBy" then "Author"
  else if n = "publishedBy" then "Publisher"
  else if n = "reviewsBook" then "Book"
  else if n = "ownedBy" then "GitHubUser"
  else if n = "belongsToRepo" then "GitHubRepo"
  else if n = "createdBy" then "GitHubUser"
  else ""

/-- The collections a collection's reference fields point at, per the
schema definitions in the scripts. -/
def refTargets (c : CollName) : List CollName :=
  if c = "Book" then ["Author", "Publisher"]
  else if c = "Review" then ["Book"]
  else if c = "GitHubRepo" then ["GitHubUser"]
  else if c = "GitHubIssue" then ["GitHubRepo", "GitHubUser"]
  else []

/-- A batch insert loop for records without reference fields (the author,
publisher and Jeopardy loops): each record is inserted inside its own
`try`, a success appends the returned identifier to the captured list, a
failure is logged and the loop continues.  `oks` gives each insert call's
outcome, `ctr` is the fresh-identifier counter.  Returns the events, the
captured identifier list, and the new counter. -/
def parentBatch (c : CollName) : List Bool → Nat → List Ev × List Nat × Nat
  | [], ctr => ([], [], ctr)
  | ok :: rest, ctr =>
    if ok then
      let r := parentBatch c rest (ctr + 1)
      (Ev.insOk c ctr [] :: r.1, ctr :: r.2.1, r.2.2)
    else
      let r := parentBatch c rest ctr
      (Ev.insFail c [] :: r.1, r.2.1, r.2.2)

/-- The reference mapping built for the `i`-th dependent record: each
`(name, ids)` spec contributes `name ↦ pick ids i`; if any lookup raises
(empty captured list) the whole mapping construction raises (`none`). -/
def refsFor (specs : List (String × List Nat)) (i : Nat) :
    Option (List (String × Nat)) :=
  match specs with
  | [] => some []
  | (n, ids) :: rest =>
    match pick ids i, refsFor rest i with
    | some x, some l => some ((n, x) :: l)
    | _, _ => none

/-- A batch insert loop for records with reference fields (the book and
review loops): for the `i`-th record the reference mapping is built with
the positional-fallback lookup; if that raises, the record's guarded body
raises before the insert call (a logged per-record failure, `refErr`),
otherwise the insert is attempted. -/
def depBatch (c : CollName) (specs : List (String × List Nat)) :
    List Bool → Nat → Nat → List Ev × List Nat × Nat
  | [], _, ctr => ([], [], ctr)
  | ok :: rest, i, ctr =>
    match refsFor specs i with
    | none =>
      let r := depBatch c specs rest (i + 1) ctr
      (Ev.refErr c :: r.1, r.2.1, r.2.2)
    | some refs =>
      if ok then
        let r := depBatch c specs rest (i + 1) (ctr + 1)
        (Ev.insOk c ctr refs :: r.1, ctr :: r.2.1, r.2.2)
      else
        let r := depBatch c specs rest (i + 1) ctr
        (Ev.insFail c refs :: r.1, r.2.1, r.2.2)

/-- `create_book_collections`: Author, Publisher, Book and Review are
created in that order, each guarded by a `try/except` that logs and
`return False`s, so a failed creation skips everything after it in the
group.  If all four creations succeed, the four insert batches run, the
book batch referencing the captured author/publisher identifiers and the
review batch the captured book identifiers.  Returns the event trace and
the group's success flag (which ignores insert failures, as the source
does). -/
def bookGroupRun (ca cp cb cr : Bool)
    (aOks pOks bOks rOks : List Bool) : List Ev × Bool :=
  if !ca then ([Ev.createFail "Author"], false)
  else if !cp then ([Ev.createOk "Author", Ev.createFail "Publisher"], false)
  else if !cb then
    ([Ev.createOk "Author", Ev.createOk "Publisher", Ev.createFail "Book"], false)
  else if !cr then
    ([Ev.createOk "Author", Ev.createOk "Publisher", Ev.createOk "Book",
      Ev.createFail "Review"], false)
  else
    let a := parentBatch "Author" aOks 0
    let p := parentBatch "Publisher" pOks a.2.2
    let b := depBatch "Book" [("writtenBy", a.2.1), ("publishedBy", p.2.1)]
      bOks 0 p.2.2
    let r := depBatch "Review" [("reviewsBook", b.2.1)] rOks 0 b.2.2
    ([Ev.createOk "Author", Ev.createOk "Publisher", Ev.createOk "Book",
      Ev.createOk "Review"] ++ a.1 ++ p.1 ++ b.1 ++ r.1, true)

/-- `create_jeopardy_collection`: one creation, then (inside the same
`try`) the fixture download and the individual insert loop; a creation or
download failure makes the whole function return `False`. -/
def jeopardyGroup (cOk dlOk : Bool) (oks : List Bool) : List Ev × Bool :=
  if !cOk then ([Ev.createFail "JeopardyQuestion"], false)
  else if !dlOk then ([Ev.createOk "JeopardyQuestion"], false)
  else (Ev.createOk "JeopardyQuestion" :: (parentBatch "JeopardyQuestion" oks 0).1,
    true)

/-- Outcome of one element returned by the issues endpoint: whether it
carries the `pull_request` marker field, and whether its insert call (if
made) succeeds. -/
structure IssueO where
  isPR : Bool
  ok : Bool
  deriving Repr, DecidableEq

/-- Outcome of one repository: whether its insert call succeeds, whether
the issues HTTP fetch succeeds, and the fetched issue elements. -/
structure RepoO where
  ok : Bool
  issuesFetch : Bool
  issues : List IssueO
  deriving Repr, DecidableEq

/-- Outcome of one username: whether the user HTTP fetch succeeds, whether
the user insert call succeeds, whether the repos HTTP fetch succeeds, and
the fetched repositories. -/
structure UserO where
  fetch : Bool
  ok : Bool
  reposFetch : Bool
  repos : List RepoO
  deriving Repr, DecidableEq

/-- The `for issue_data in issues_data[:1]` loop body: a pull-request
element is skipped with `continue` (no insert), otherwise the issue is
inserted with references to the enclosing repository and user.  The
caller passes the already-sliced element list. -/
def issueLoop (uid rid : Nat) : List IssueO → Nat → List Ev × Nat
  | [], ctr => ([], ctr)
  | io :: rest, ctr =>
    if io.isPR then issueLoop uid rid rest ctr
    else if io.ok then
      let r := issueLoop uid rid rest (ctr + 1)
      (Ev.insOk "GitHubIssue" ctr
        [("belongsToRepo", rid), ("createdBy", uid)] :: r.1, r.2)
    else
      let r := issueLoop uid rid rest ctr
      (Ev.insFail "GitHubIssue"
        [("belongsToRepo", rid), ("createdBy", uid)] :: r.1, r.2)

/-- The `for repo_data in repos_data[:2]` loop body: insert the repository
with an `ownedBy` reference to the current user; on success, fetch and
process its first fetched issue element; a failed repository insert is
caught by the per-repo `except` and the loop continues.  The caller
passes the already-sliced repository list. -/
def repoLoop (uid : Nat) : List RepoO → Nat → List Ev × Nat
  | [], ctr => ([], ctr)
  | ro :: rest, ctr =>
    if ro.ok then
      let is := if ro.issuesFetch
        then issueLoop uid ctr (ro.issues.take 1) (ctr + 1)
        else ([], ctr + 1)
      let r := repoLoop uid rest is.2
      (Ev.insOk "GitHubRepo" ctr [("ownedBy", uid)] :: (is.1 ++ r.1), r.2)
    else
      let r := repoLoop uid rest ctr
      (Ev.insFail "GitHubRepo" [("ownedBy", uid)] :: r.1, r.2)

/-- The `for username in popular_users` loop: a failed profile fetch skips
the user; a failed user insert is caught by the per-user `except` and
skips that user's repositories; otherwise the first 2 of the fetched
repositories are processed. -/
def userLoop : List UserO → Nat → List Ev × Nat
  | [], ctr => ([], ctr)
  | uo :: rest, ctr =>
    if !uo.fetch then userLoop rest ctr
    else if uo.ok then
      let rs := if uo.reposFetch
        then repoLoop ctr (uo.repos.take 2) (ctr + 1)
        else ([], ctr + 1)
      let r := userLoop rest rs.2
      (Ev.insOk "GitHubUser" ctr [] :: (rs.1 ++ r.1), r.2)
    else
      let r := userLoop rest ctr
      (Ev.insFail "GitHubUser" [] :: r.1, r.2)

/-- `create_github_collections`: GitHubUser, GitHubRepo and GitHubIssue
are created in that order, each guarded with a logged `return False` on
failure (skipping the rest of the group); then, unless `--skip-github`
was given, the live-API fetch loop runs. -/
def githubGroupRun (cu cg ci : Bool) (skipGh : Bool)
    (users : List UserO) : List Ev × Bool :=
  if !cu then ([Ev.createFail "GitHubUser"], false)
  else if !cg then ([Ev.createOk "GitHubUser", Ev.createFail "GitHubRepo"], false)
  else if !ci then
    ([Ev.createOk "GitHubUser", Ev.createOk "GitHubRepo",
      Ev.createFail "GitHubIssue"], false)
  else if skipGh then
    ([Ev.createOk "GitHubUser", Ev.createOk "GitHubRepo",
      Ev.createOk "GitHubIssue"], true)
  else
    ([Ev.createOk "GitHubUser", Ev.createOk "GitHubRepo",
      Ev.createOk "GitHubIssue"] ++ (userLoop users 0).1, true)

/-- The retry budget of the readiness probe (`for attempt in range(10)`). -/
def retryLimit : Nat := 10

/-- The fixed delay slept after each failed readiness attempt
(`time.sleep(2)`), in seconds. -/
def retryDelaySec : Nat := 2

/-- One readiness-probe recursion step: attempt the listing call at
attempt index `i`; on success stop, on failure sleep once and retry with
one unit less budget.  Returns (ready, listing calls made, sleeps). -/
def probeAux (readyAt : Nat → Bool) : Nat → Nat → Bool × Nat × Nat
  | _, 0 => (false, 0, 0)
  | i, fuel + 1 =>
    if readyAt i then (true, 1, 0)
    else
      let r := probeAux readyAt (i + 1) fuel
      (r.1, r.2.1 + 1, r.2.2 + 1)

/-- The readiness probe: up to `retryLimit` listing calls, breaking out on
the first success. -/
def probe (readyAt : Nat → Bool) : Bool × Nat × Nat :=
  probeAux readyAt 0 retryLimit

/-- Observable outcome of one whole script process: whether a connection
handle was acquired, whether it was closed before the process ended, and
the process exit status. -/
structure RunResult where
  connected : Bool
  closed : Bool
  exitCode : Nat
  deriving Repr, DecidableEq

/-- `populate_advanced.py` (and `populate_github_data.py`) at process
level: the connection and the readiness probe run at module scope, and a
readiness-budget exhaustion calls `exit(1)` before the `try/finally`
block that closes the client; only failures raised inside the body reach
the `finally` and close the handle (the interpreter then exits nonzero on
the uncaught exception). -/
def advancedRun (connectOk : Bool) (readyAt : Nat → Bool)
    (bodyFails : Bool) : RunResult :=
  if !connectOk then ⟨false, false, 1⟩
  else if !(probe readyAt).1 then ⟨true, false, 1⟩
  else if bodyFails then ⟨true, true, 1⟩
  else ⟨true, true, 0⟩

/-- `verify_collections` in `populate.py`: list all collections (an
exception here is the only way the function returns `False`); per
collection a count query whose failure prints "unknown"; a nested-field
test if `Author` is listed and a reference-traversal test if `Book` is
listed, each failure downgraded to a printed warning.  Returns the
success flag and the number of warnings printed. -/
def verifyCollections (listAll : Option (List String))
    (countOk : String → Bool) (nestedOk refOk : Bool) : Bool × Nat :=
  match listAll with
  | none => (false, 0)
  | some names =>
    let w1 := (names.filter (fun n => !countOk n)).length
    let w2 := if names.contains "Author" && !nestedOk then 1 else 0
    let w3 := if names.contains "Book" && !refOk then 1 else 0
    (true, w1 + w2 + w3)

/-- `main()` of `populate.py`: a connection or readiness failure returns
exit code 1; in `--verify-only` mode the exit code is 0 exactly when
`verify_collections` returns `True`; otherwise the three collection
groups all run (each failure only clearing the shared success flag), exit
code 1 if any group failed, else 0 (a verification failure at the end
only prints a warning). -/
def mainRun (verifyOnly connectOk : Bool) (readyAt : Nat → Bool)
    (jc jd : Bool) (jOks : List Bool)
    (ca cp cb cr : Bool) (aOks pOks bOks rOks : List Bool)
    (cu cg ci skipGh : Bool) (users : List UserO)
    (listAll : Option (List String)) (countOk : String → Bool)
    (nestedOk refOk : Bool) : List Ev × Nat :=
  if !connectOk then ([], 1)
  else if !(probe readyAt).1 then ([], 1)
  else if verifyOnly then
    ([], if (verifyCollections listAll countOk nestedOk refOk).1 then 0 else 1)
  else
    let j := jeopardyGroup jc jd jOks
    let b := bookGroupRun ca cp cb cr aOks pOks bOks rOks
    let g := githubGroupRun cu cg ci skipGh users
    (j.1 ++ b.1 ++ g.1, if j.2 && b.2 && g.2 then 0 else 1)

/-- JSON state of the `body` field of an issue element: absent, JSON
null, or a string (Python strings modelled as character lists). -/
inductive BodyField where
  | missing
  | null
  | str (s : List Char)
  deriving Repr, DecidableEq

/-- The expression `issue_data.get("body", "") or ""`: a missing key
yields the `get` default, a `None` value and an empty string are both
falsy and yield the right operand. -/
def bodyRaw : BodyField → List Char
  | BodyField.missing => []
  | BodyField.null => []
  | BodyField.str s => if s = [] then [] else s

/-- The stored issue body: `(issue_data.get("body", "") or "")[:1000]`. -/
def issueBody (b : BodyField) : List Char :=
  (bodyRaw b).take 1000

/-- Modelled from the spec (claim wording, for comparison with the code):
up to 2 issues per repository with pull requests skipped without
consuming the limit, i.e. the number inserted is the number of the first
2 non-pull-request elements. -/
def issuesInsertedSpecModel (issues : List IssueO) : Nat :=
  ((issues.filter (fun io => !io.isPR)).take 2).length

/-- Whether a creation of collection `c` was attempted (successfully or
not) somewhere in a trace. -/
def createAttempted (c : CollName) (evs : List Ev) : Bool :=
  evs.any (fun e => match e with
    | Ev.createOk n => n == c
    | Ev.createFail n => n == c
    | _ => false)

/-- The number of records of collection `c` processed by the insert loops
in a trace: successful inserts, failed (logged) inserts, and records
whose reference lookup raised (also logged). -/
def recordEvents (c : CollName) : List Ev → Nat
  | [] => 0
  | Ev.insOk n _ _ :: rest => (if n == c then 1 else 0) + recordEvents c rest
  | Ev.insFail n _ :: rest => (if n == c then 1 else 0) + recordEvents c rest
  | Ev.refErr n :: rest => (if n == c then 1 else 0) + recordEvents c rest
  | Ev.createOk _ :: rest => recordEvents c rest
  | Ev.createFail _ :: rest => recordEvents c rest

/-- The successful book-insert events of a trace, in order. -/
def bookInsertEvents (evs : List Ev) : List Ev :=
  evs.filter (fun e => match e with
    | Ev.insOk n _ _ => n == "Book"
    | _ => false)

/-- The identifiers known after a trace: each successful insert adds its
(collection, identifier) pair to the accumulator. -/
def knownAfter (known : List (CollName × Nat)) : List Ev → List (CollName × Nat)
  | [] => known
  | Ev.insOk c id _ :: rest => knownAfter ((c, id) :: known) rest
  | Ev.insFail _ _ :: rest => knownAfter known rest
  | Ev.refErr _ :: rest => knownAfter known rest
  | Ev.createOk _ :: rest => knownAfter known rest
  | Ev.createFail _ :: rest => knownAfter known rest

/-- The collections whose creation has completed after a trace. -/
def createdAfter (created : List CollName) : List Ev → List CollName
  | [] => created
  | Ev.createOk c :: rest => createdAfter (c :: created) rest
  | Ev.createFail _ :: rest => createdAfter created rest
  | Ev.insOk _ _ _ :: rest => createdAfter created rest
  | Ev.insFail _ _ :: rest => createdAfter created rest
  | Ev.refErr _ :: rest => createdAfter created rest

/-- Reference validity of a trace: every identifier attached to a
reference field of an insert attempt (successful or not) was returned by
an earlier successful insert into the reference's target collection,
starting from the knowledge `known`. -/
def RefsValid (known : List (CollName × Nat)) : List Ev → Prop
  | [] => True
  | Ev.insOk c id refs :: rest =>
    (∀ r ∈ refs, (refTargetOfName r.1, r.2) ∈ known) ∧
      RefsValid ((c, id) :: known) rest
  | Ev.insFail _ refs :: rest =>
    (∀ r ∈ refs, (refTargetOfName r.1, r.2) ∈ known) ∧ RefsValid known rest
  | Ev.refErr _ :: rest => RefsValid known rest
  | Ev.createOk _ :: rest => RefsValid known rest
  | Ev.createFail _ :: rest => RefsValid known rest

/-- Creation-order validity of a trace: each creation attempt of a
collection with reference fields happens only after the creation of
every collection it references has completed. -/
def CreateOrderOk (created : List CollName) : List Ev → Prop
  | [] => True
  | Ev.createOk c :: rest =>
    (∀ t ∈ refTargets c, t ∈ created) ∧ CreateOrderOk (c :: created) rest
  | Ev.createFail c :: rest =>
    (∀ t ∈ refTargets c, t ∈ created) ∧ CreateOrderOk created rest
  | Ev.insOk _ _ _ :: rest => CreateOrderOk created rest
  | Ev.insFail _ _ :: rest => CreateOrderOk created rest
  | Ev.refErr _ :: rest => CreateOrderOk created rest

theorem refsValid_append (l₁ l₂ : List Ev) (known : List (CollName × Nat)) :
    RefsValid known (l₁ ++ l₂) ↔
      RefsValid known l₁ ∧ RefsValid (knownAfter known l₁) l₂ := by
  induction l₁ generalizing known with
  | nil => simp [RefsValid, knownAfter]
  | cons e rest ih =>
    cases e <;> simp [RefsValid, knownAfter, ih, and_assoc]

theorem refsValid_mono (l : List Ev) (known knownBig : List (CollName × Nat))
    (hsub : known ⊆ knownBig) (h : RefsValid known l) :
    RefsValid knownBig l := by
  induction l generalizing known knownBig with
  | nil => trivial
  | cons e rest ih =>
    cases e with
    | insOk c id refs =>
      refine ⟨fun r hr => hsub (h.1 r hr), ?_⟩
      exact ih _ _ (List.cons_subset_cons _ hsub) h.2
    | insFail c refs =>
      exact ⟨fun r hr => hsub (h.1 r hr), ih _ _ hsub h.2⟩
    | refErr c => exact ih _ _ hsub h
    | createOk c => exact ih _ _ hsub h
    | createFail c => exact ih _ _ hsub h

theorem knownAfter_extends (l : List Ev) (known : List (CollName × Nat)) :
    known ⊆ knownAfter known l := by
  induction l generalizing known with
  | nil => exact fun _ h => h
  | cons e rest ih =>
    cases e with
    | insOk c id refs =>
      exact fun x hx => ih ((c, id) :: known) (List.subset_cons_self _ _ hx)
    | insFail c refs => exact ih known
    | refErr c => exact ih known
    | createOk c => exact ih known
    | createFail c => exact ih known

theorem createOrder_append (l₁ l₂ : List Ev) (created : List CollName) :
    CreateOrderOk created (l₁ ++ l₂) ↔
      CreateOrderOk created l₁ ∧ CreateOrderOk (createdAfter created l₁) l₂ := by
  induction l₁ generalizing created with
  | nil => simp [CreateOrderOk, createdAfter]
  | cons e rest ih =>
    cases e <;> simp [CreateOrderOk, createdAfter, ih, and_assoc]

theorem parentBatch_events_length (c : CollName) (oks : List Bool) (ctr : Nat) :
    (parentBatch c oks ctr).1.length = oks.length := by
  induction oks generalizing ctr with
  | nil => rfl
  | cons ok rest ih => cases ok <;> simp [parentBatch, ih]

theorem parentBatch_ids_count (c : CollName) (oks : List Bool) (ctr : Nat) :
    (parentBatch c oks ctr).2.1.length = oks.count true := by
  induction oks generalizing ctr with
  | nil => rfl
  | cons ok rest ih => cases ok <;> simp [parentBatch, ih, List.count_cons]

theorem parentBatch_refsValid (c : CollName) (oks : List Bool) (ctr : Nat)
    (known : List (CollName × Nat)) :
    RefsValid known (parentBatch c oks ctr).1 := by
  induction oks generalizing ctr known with
  | nil => trivial
  | cons ok rest ih => cases ok <;> simp [parentBatch, RefsValid, ih]

theorem parentBatch_known (c : CollName) (oks : List Bool) (ctr : Nat)
    (known : List (CollName × Nat)) :
    ∀ id ∈ (parentBatch c oks ctr).2.1,
      (c, id) ∈ knownAfter known (parentBatch c oks ctr).1 := by
  induction oks generalizing ctr known with
  | nil => intro id h; cases h
  | cons ok rest ih =>
    cases ok with
    | true =>
      intro id hid
      simp only [parentBatch, if_pos, knownAfter] at hid ⊢
      rcases List.mem_cons.mp hid with h | h
      · subst h
        exact knownAfter_extends _ _ (List.mem_cons_self _ _)
      · exact ih (ctr + 1) ((c, ctr) :: known) id h
    | false =>
      intro id hid
      simp only [parentBatch, knownAfter] at hid ⊢
      exact ih ctr known id hid

theorem parentBatch_createOrder (c : CollName) (oks : List Bool) (ctr : Nat)
    (created : List CollName) :
    CreateOrderOk created (parentBatch c oks ctr).1 ∧
      createdAfter created (parentBatch c oks ctr).1 = created := by
  induction oks generalizing ctr with
  | nil => exact ⟨trivial, rfl⟩
  | cons ok rest ih => cases ok <;> simp [parentBatch, CreateOrderOk, createdAfter, ih]

theorem knownAfter_append (l₁ l₂ : List Ev) (known : List (CollName × Nat)) :
    knownAfter known (l₁ ++ l₂) = knownAfter (knownAfter known l₁) l₂ := by
  induction l₁ generalizing known with
  | nil => rfl
  | cons e rest ih => cases e <;> simp [knownAfter, ih]

theorem createdAfter_append (l₁ l₂ : List Ev) (created : List CollName) :
    createdAfter created (l₁ ++ l₂) = createdAfter (createdAfter created l₁) l₂ := by
  induction l₁ generalizing created with
  | nil => rfl
  | cons e rest ih => cases e <;> simp [createdAfter, ih]

theorem pick_mem (ids : List Nat) (i : Nat) (x : Nat) (h : pick ids i = some x) :
    x ∈ ids := by
  unfold pick at h
  split at h <;> exact List.getElem?_mem h

theorem refsFor_mem (specs : List (String × List Nat)) (i : Nat)
    (refs : List (String × Nat)) (h : refsFor specs i = some refs) :
    ∀ r ∈ refs, ∃ p ∈ specs, p.1 = r.1 ∧ r.2 ∈ p.2 := by
  induction specs generalizing refs with
  | nil =>
    simp only [refsFor] at h
    cases h
    intro r hr; cases hr
  | cons sp rest ih =>
    obtain ⟨n, ids⟩ := sp
    simp only [refsFor] at h
    rcases hp : pick ids i with _ | x <;> rw [hp] at h
    · cases h
    · rcases hrest : refsFor rest i with _ | l <;> rw [hrest] at h
      · cases h
      · cases h
        intro r hr
        rcases List.mem_cons.mp hr with h | h
        · subst h
          exact ⟨(n, ids), List.mem_cons_self _ _, rfl, pick_mem ids i x hp⟩
        · obtain ⟨p, hps, he, hm⟩ := ih l hrest r h
          exact ⟨p, List.mem_cons_of_mem _ hps, he, hm⟩

theorem depBatch_events_length (c : CollName) (specs : List (String × List Nat))
    (oks : List Bool) (i ctr : Nat) :
    (depBatch c specs oks i ctr).1.length = oks.length := by
  induction oks generalizing i ctr with
  | nil => rfl
  | cons ok rest ih =>
    simp only [depBatch]
    rcases refsFor specs i with _ | refs
    · simp [ih]
    · cases ok <;> simp [ih]

theorem depBatch_refsValid (c : CollName) (specs : List (String × List Nat))
    (oks : List Bool) (i ctr : Nat) (known : List (CollName × Nat))
    (H : ∀ p ∈ specs, ∀ x ∈ p.2, (refTargetOfName p.1, x) ∈ known) :
    RefsValid known (depBatch c specs oks i ctr).1 := by
  induction oks generalizing i ctr known with
  | nil => trivial
  | cons ok rest ih =>
    simp only [depBatch]
    rcases hr : refsFor specs i with _ | refs
    · exact ih (i + 1) ctr known H
    · have hrefs : ∀ r ∈ refs, (refTargetOfName r.1, r.2) ∈ known := by
        intro r hrr
        obtain ⟨p, hps, he, hm⟩ := refsFor_mem specs i refs hr r hrr
        rw [← he]
        exact H p hps r.2 hm
      cases ok with
      | true =>
        refine ⟨hrefs, ih (i + 1) (ctr + 1) ((c, ctr) :: known) ?_⟩
        intro p hp x hx
        exact List.mem_cons_of_mem _ (H p hp x hx)
      | false => exact ⟨hrefs, ih (i + 1) ctr known H⟩

theorem depBatch_known (c : CollName) (specs : List (String × List Nat))
    (oks : List Bool) (i ctr : Nat) (known : List (CollName × Nat)) :
    ∀ id ∈ (depBatch c specs oks i ctr).2.1,
      (c, id) ∈ knownAfter known (depBatch c specs oks i ctr).1 := by
  induction oks generalizing i ctr known with
  | nil => intro id h; cases h
  | cons ok rest ih =>
    intro id hid
    simp only [depBatch] at hid ⊢
    rcases hr : refsFor specs i with _ | refs <;> rw [hr] at hid <;>
      dsimp only at hid ⊢
    · simp only [knownAfter]
      exact ih (i + 1) ctr known id hid
    · cases ok with
      | true =>
        simp only [if_pos, knownAfter] at hid ⊢
        rcases List.mem_cons.mp hid with h | h
        · subst h
          exact knownAfter_extends _ _ (List.mem_cons_self _ _)
        · exact ih (i + 1) (ctr + 1) ((c, ctr) :: known) id h
      | false =>
        simp only [knownAfter] at hid ⊢
        exact ih (i + 1) ctr known id hid

theorem depBatch_createOrder (c : CollName) (specs : List (String × List Nat))
    (oks : List Bool) (i ctr : Nat) (created : List CollName) :
    CreateOrderOk created (depBatch c specs oks i ctr).1 ∧
      createdAfter created (depBatch c specs oks i ctr).1 = created := by
  induction oks generalizing i ctr with
  | nil => exact ⟨trivial, rfl⟩
  | cons ok rest ih =>
    simp only [depBatch]
    rcases refsFor specs i with _ | refs
    · simpa [CreateOrderOk, createdAfter] using ih (i + 1) ctr
    · cases ok <;> simpa [CreateOrderOk, createdAfter] using ih (i + 1) _

theorem parentBatch_createdAfter (c : CollName) (oks : List Bool) (ctr : Nat)
    (created : List CollName) :
    createdAfter created (parentBatch c oks ctr).1 = created :=
  (parentBatch_createOrder c oks ctr created).2

theorem depBatch_createdAfter (c : CollName) (specs : List (String × List Nat))
    (oks : List Bool) (i ctr : Nat) (created : List CollName) :
    createdAfter created (depBatch c specs oks i ctr).1 = created :=
  (depBatch_createOrder c specs oks i ctr created).2

theorem bookGroupRun_createOrder (ca cp cb cr : Bool)
    (aOks pOks bOks rOks : List Bool) :
    CreateOrderOk [] (bookGroupRun ca cp cb cr aOks pOks bOks rOks).1 := by
  cases ca <;> cases cp <;> cases cb <;> cases cr <;>
    try (simp [bookGroupRun, CreateOrderOk, refTargets]; done)
  simp only [bookGroupRun, Bool.not_true, Bool.false_eq_true, if_false]
  simp only [createOrder_append, createdAfter_append, parentBatch_createdAfter,
    depBatch_createdAfter]
  refine ⟨⟨⟨⟨?_, ?_⟩, ?_⟩, ?_⟩, ?_⟩
  · simp [CreateOrderOk, refTargets]
  · exact (parentBatch_createOrder _ _ _ _).1
  · exact (parentBatch_createOrder _ _ _ _).1
  · exact (depBatch_createOrder _ _ _ _ _ _).1
  · exact (depBatch_createOrder _ _ _ _ _ _).1

theorem bookGroupRun_refsValid (ca cp cb cr : Bool)
    (aOks pOks bOks rOks : List Bool) :
    RefsValid [] (bookGroupRun ca cp cb cr aOks pOks bOks rOks).1 := by
  cases ca <;> cases cp <;> cases cb <;> cases cr <;>
    try (simp [bookGroupRun, RefsValid]; done)
  simp only [bookGroupRun, Bool.not_true, Bool.false_eq_true, if_false]
  simp only [refsValid_append, knownAfter_append]
  have hk0 : knownAfter []
      [Ev.createOk "Author", Ev.createOk "Publisher", Ev.createOk "Book",
        Ev.createOk "Review"] = [] := by
    simp [knownAfter]
  simp only [hk0]
  refine ⟨⟨⟨⟨?_, ?_⟩, ?_⟩, ?_⟩, ?_⟩
  · simp [RefsValid]
  · exact parentBatch_refsValid "Author" aOks 0 []
  · exact parentBatch_refsValid "Publisher" pOks _ _
  · refine depBatch_refsValid _ _ bOks 0 _ _ ?_
    intro p hp x hx
    rcases List.mem_cons.mp hp with h | h
    · subst h
      have ht : refTargetOfName "writtenBy" = "Author" := by
        simp [refTargetOfName]
      rw [ht]
      exact knownAfter_extends _ _ (parentBatch_known "Author" aOks 0 [] x hx)
    · rcases List.mem_cons.mp h with h2 | h2
      · subst h2
        have ht : refTargetOfName "publishedBy" = "Publisher" := by
          simp [refTargetOfName]
        rw [ht]
        exact parentBatch_known "Publisher" pOks _ _ x hx
      · cases h2
  · refine depBatch_refsValid _ _ rOks 0 _ _ ?_
    intro p hp x hx
    rcases List.mem_cons.mp hp with h | h
    · subst h
      have ht : refTargetOfName "reviewsBook" = "Book" := by
        simp [refTargetOfName]
      rw [ht]
      exact depBatch_known "Book" _ bOks 0 _ _ x hx
    · cases h

theorem ghIssueRefs_ok (uid rid : Nat) (known : List (CollName × Nat))
    (hU : ("GitHubUser", uid) ∈ known) (hR : ("GitHubRepo", rid) ∈ known) :
    ∀ r ∈ [(("belongsToRepo" : String), rid), ("createdBy", uid)],
      (refTargetOfName r.1, r.2) ∈ known := by
  intro r hr
  rcases List.mem_cons.mp hr with h | h
  · subst h
    simpa [refTargetOfName] using hR
  · rcases List.mem_cons.mp h with h2 | h2
    · subst h2
      simpa [refTargetOfName] using hU
    · cases h2

theorem issueLoop_refsValid (l : List IssueO) (uid rid ctr : Nat)
    (known : List (CollName × Nat))
    (hU : ("GitHubUser", uid) ∈ known) (hR : ("GitHubRepo", rid) ∈ known) :
    RefsValid known (issueLoop uid rid l ctr).1 := by
  induction l generalizing ctr known with
  | nil => trivial
  | cons io rest ih =>
    rcases io with ⟨isPR, ok⟩
    cases isPR with
    | true => simpa [issueLoop] using ih ctr known hU hR
    | false =>
      cases ok with
      | true =>
        simp only [issueLoop, RefsValid]
        exact ⟨ghIssueRefs_ok uid rid known hU hR,
          ih (ctr + 1) _ (List.mem_cons_of_mem _ hU) (List.mem_cons_of_mem _ hR)⟩
      | false =>
        simp only [issueLoop, RefsValid]
        exact ⟨ghIssueRefs_ok uid rid known hU hR, ih ctr known hU hR⟩

theorem repoLoop_refsValid (rs : List RepoO) (uid ctr : Nat)
    (known : List (CollName × Nat)) (hU : ("GitHubUser", uid) ∈ known) :
    RefsValid known (repoLoop uid rs ctr).1 := by
  induction rs generalizing ctr known with
  | nil => trivial
  | cons ro rest ih =>
    rcases ro with ⟨ok, ifetch, issues⟩
    cases ok with
    | false =>
      simp only [repoLoop, RefsValid]
      refine ⟨?_, ih ctr known hU⟩
      intro r hr
      rcases List.mem_cons.mp hr with h | h
      · subst h
        simpa [refTargetOfName] using hU
      · cases h
    | true =>
      simp only [repoLoop, RefsValid]
      constructor
      · intro r hr
        rcases List.mem_cons.mp hr with h | h
        · subst h
          simpa [refTargetOfName] using hU
        · cases h
      · rw [refsValid_append]
        constructor
        · cases ifetch with
          | true =>
            rw [if_pos rfl]
            exact issueLoop_refsValid _ uid ctr _ _
              (List.mem_cons_of_mem _ hU) (List.mem_cons_self _ _)
          | false =>
            rw [if_neg Bool.false_ne_true]
            trivial
        · exact ih _ _
            (knownAfter_extends _ _ (List.mem_cons_of_mem _ hU))

theorem userLoop_refsValid (us : List UserO) (ctr : Nat)
    (known : List (CollName × Nat)) :
    RefsValid known (userLoop us ctr).1 := by
  induction us generalizing ctr known with
  | nil => trivial
  | cons uo rest ih =>
    rcases uo with ⟨fetch, ok, rfetch, repos⟩
    cases fetch with
    | false => simpa [userLoop] using ih ctr known
    | true =>
      cases ok with
      | false =>
        simp only [userLoop, RefsValid]
        exact ⟨fun r hr => absurd hr (List.not_mem_nil r), ih ctr known⟩
      | true =>
        simp only [userLoop, RefsValid]
        constructor
        · intro r hr
          cases hr
        · rw [refsValid_append]
          constructor
          · cases rfetch with
            | true =>
              rw [if_pos rfl]
              exact repoLoop_refsValid _ ctr _ _ (List.mem_cons_self _ _)
            | false =>
              rw [if_neg Bool.false_ne_true]
              trivial
          · exact ih _ _

/-- Record-level events: anything produced by an insert loop (never a
collection creation). -/
def IsRecordEv : Ev → Prop
  | Ev.insOk _ _ _ => True
  | Ev.insFail _ _ => True
  | Ev.refErr _ => True
  | Ev.createOk _ => False
  | Ev.createFail _ => False

theorem createOrder_of_records (l : List Ev) (h : ∀ e ∈ l, IsRecordEv e)
    (created : List CollName) :
    CreateOrderOk created l ∧ createdAfter created l = created := by
  induction l generalizing created with
  | nil => exact ⟨trivial, rfl⟩
  | cons e rest ih =>
    have he := h e (List.mem_cons_self _ _)
    have hr : ∀ x ∈ rest, IsRecordEv x := fun x hx => h x (List.mem_cons_of_mem _ hx)
    cases e with
    | createOk c => cases he
    | createFail c => cases he
    | insOk c id refs =>
      exact ⟨(ih hr created).1, (ih hr created).2⟩
    | insFail c refs =>
      exact ⟨(ih hr created).1, (ih hr created).2⟩
    | refErr c =>
      exact ⟨(ih hr created).1, (ih hr created).2⟩

theorem issueLoop_records (l : List IssueO) (uid rid ctr : Nat) :
    ∀ e ∈ (issueLoop uid rid l ctr).1, IsRecordEv e := by
  induction l generalizing ctr with
  | nil => intro e he; cases he
  | cons io rest ih =>
    rcases io with ⟨isPR, ok⟩
    cases isPR with
    | true => simpa [issueLoop] using ih ctr
    | false =>
      cases ok with
      | true =>
        intro e he
        simp only [issueLoop] at he
        rcases List.mem_cons.mp he with h | h
        · subst h; trivial
        · exact ih (ctr + 1) e h
      | false =>
        intro e he
        simp only [issueLoop] at he
        rcases List.mem_cons.mp he with h | h
        · subst h; trivial
        · exact ih ctr e h

theorem repoLoop_records (rs : List RepoO) (uid ctr : Nat) :
    ∀ e ∈ (repoLoop uid rs ctr).1, IsRecordEv e := by
  induction rs generalizing ctr with
  | nil => intro e he; cases he
  | cons ro rest ih =>
    rcases ro with ⟨ok, ifetch, issues⟩
    cases ok with
    | false =>
      intro e he
      simp only [repoLoop] at he
      rcases List.mem_cons.mp he with h | h
      · subst h; trivial
      · exact ih ctr e h
    | true =>
      intro e he
      simp only [repoLoop] at he
      rcases List.mem_cons.mp he with h | h
      · subst h; trivial
      · rcases List.mem_append.mp h with h2 | h2
        · cases ifetch with
          | true =>
            rw [if_pos rfl] at h2
            exact issueLoop_records _ uid ctr _ e h2
          | false =>
            rw [if_neg Bool.false_ne_true] at h2
            cases h2
        · exact ih _ e h2

theorem userLoop_records (us : List UserO) (ctr : Nat) :
    ∀ e ∈ (userLoop us ctr).1, IsRecordEv e := by
  induction us generalizing ctr with
  | nil => intro e he; cases he
  | cons uo rest ih =>
    rcases uo with ⟨fetch, ok, rfetch, repos⟩
    cases fetch with
    | false => simpa [userLoop] using ih ctr
    | true =>
      cases ok with
      | false =>
        intro e he
        simp only [userLoop] at he
        rcases List.mem_cons.mp he with h | h
        · subst h; trivial
        · exact ih ctr e h
      | true =>
        intro e he
        simp only [userLoop] at he
        rcases List.mem_cons.mp he with h | h
        · subst h; trivial
        · rcases List.mem_append.mp h with h2 | h2
          · cases rfetch with
            | true =>
              rw [if_pos rfl] at h2
              exact repoLoop_records _ ctr _ e h2
            | false =>
              rw [if_neg Bool.false_ne_true] at h2
              cases h2
          · exact ih _ e h2

theorem githubGroupRun_createOrder (cu cg ci skipGh : Bool)
    (users : List UserO) :
    CreateOrderOk [] (githubGroupRun cu cg ci skipGh users).1 := by
  cases cu <;> cases cg <;> cases ci <;> cases skipGh <;>
    try (simp [githubGroupRun, CreateOrderOk, refTargets]; done)
  all_goals
    simp only [githubGroupRun, Bool.not_true, Bool.false_eq_true, if_false]
  all_goals rw [createOrder_append]
  all_goals refine ⟨?_, (createOrder_of_records _ (userLoop_records users 0) _).1⟩
  all_goals simp [CreateOrderOk, refTargets]

theorem githubGroupRun_refsValid (cu cg ci skipGh : Bool)
    (users : List UserO) :
    RefsValid [] (githubGroupRun cu cg ci skipGh users).1 := by
  cases cu <;> cases cg <;> cases ci <;> cases skipGh <;>
    try (simp [githubGroupRun, RefsValid]; done)
  all_goals
    simp only [githubGroupRun, Bool.not_true, Bool.false_eq_true, if_false]
  all_goals rw [refsValid_append]
  all_goals
    refine ⟨by simp [RefsValid], ?_⟩
  all_goals
    have hk : knownAfter []
        [Ev.createOk "GitHubUser", Ev.createOk "GitHubRepo",
          Ev.createOk "GitHubIssue"] = [] := by simp [knownAfter]
  all_goals rw [hk]
  all_goals exact userLoop_refsValid users 0 []

/-- C7: in every run, each collection that declares reference fields has
its creation attempted only after the creation of every collection it
references has completed (Author and Publisher before Book, Book before
Review, GitHubUser before GitHubRepo, GitHubRepo before GitHubIssue),
and every identifier attached to a reference field was returned by an
earlier insert into the referenced collection within the same run. -/
theorem creation_and_reference_ordering (ca cp cb cr : Bool)
    (aOks pOks bOks rOks : List Bool) (cu cg ci skipGh : Bool)
    (users : List UserO) :
    (CreateOrderOk [] (bookGroupRun ca cp cb cr aOks pOks bOks rOks).1 ∧
      RefsValid [] (bookGroupRun ca cp cb cr aOks pOks bOks rOks).1) ∧
    (CreateOrderOk [] (githubGroupRun cu cg ci skipGh users).1 ∧
      RefsValid [] (githubGroupRun cu cg ci skipGh users).1) :=
  ⟨⟨bookGroupRun_createOrder ca cp cb cr aOks pOks bOks rOks,
      bookGroupRun_refsValid ca cp cb cr aOks pOks bOks rOks⟩,
    ⟨githubGroupRun_createOrder cu cg ci skipGh users,
      githubGroupRun_refsValid cu cg ci skipGh users⟩⟩

theorem count_true_add_count_false (oks : List Bool) :
    oks.count true + oks.count false = oks.length := by
  induction oks with
  | nil => rfl
  | cons b rest ih => cases b <;> simp [List.count_cons] <;> omega

/-- C5: every record of a batch is attempted (one logged event per
intended record, failures included), and the reported success count is
exactly the number of intended records minus the number of failed
inserts. -/
theorem batch_continue_on_error (c : CollName) (oks : List Bool) (ctr : Nat) :
    (parentBatch c oks ctr).1.length = oks.length ∧
      (parentBatch c oks ctr).2.1.length = oks.length - oks.count false := by
  refine ⟨parentBatch_events_length c oks ctr, ?_⟩
  have h1 := parentBatch_ids_count c oks ctr
  have h2 := count_true_add_count_false oks
  omega

/-- C9: the stored issue body is the first 1000 characters of the
API-returned body; a missing or null body maps to the empty string; the
stored body never exceeds 1000 characters and the mapping is total (it
never fails on a null body). -/
theorem issue_body_truncation :
    (∀ b : BodyField, (issueBody b).length ≤ 1000) ∧
      (∀ s : List Char, issueBody (BodyField.str s) = s.take 1000) ∧
      issueBody BodyField.null = [] ∧ issueBody BodyField.missing = [] := by
  refine ⟨?_, ?_, rfl, rfl⟩
  · intro b
    simp only [issueBody, List.length_take]
    omega
  · intro s
    cases s with
    | nil => rfl
    | cons a rest => simp [issueBody, bodyRaw]

theorem refsFor_firstEmpty (n : String) (rest : List (String × List Nat))
    (i : Nat) : refsFor ((n, ([] : List Nat)) :: rest) i = none := by
  simp [refsFor, pick]

theorem depBatch_firstEmpty (c : CollName) (n : String)
    (rest : List (String × List Nat)) (oks : List Bool) (i ctr : Nat) :
    depBatch c ((n, ([] : List Nat)) :: rest) oks i ctr
      = (List.replicate oks.length (Ev.refErr c), [], ctr) := by
  induction oks generalizing i with
  | nil => rfl
  | cons ok tail ih =>
    simp only [depBatch, refsFor_firstEmpty, ih, List.length_cons,
      List.replicate_succ]

theorem parentBatch_allFail (c : CollName) (m ctr : Nat) :
    parentBatch c (List.replicate m false) ctr
      = (List.replicate m (Ev.insFail c []), [], ctr) := by
  induction m generalizing ctr with
  | zero => rfl
  | succ k ih => simp [List.replicate_succ, parentBatch, ih]

theorem recordEvents_append (c : CollName) (l₁ l₂ : List Ev) :
    recordEvents c (l₁ ++ l₂) = recordEvents c l₁ + recordEvents c l₂ := by
  induction l₁ with
  | nil => simp [recordEvents]
  | cons e rest ih => cases e <;> simp [recordEvents, ih] <;> omega

theorem recordEvents_replicate_insFail (c c0 : CollName)
    (refs : List (CollName × Nat)) (m : Nat) :
    recordEvents c (List.replicate m (Ev.insFail c0 refs))
      = if c0 == c then m else 0 := by
  induction m with
  | zero => simp [recordEvents]
  | succ k ih =>
    rcases h : c0 == c with _ | _ <;>
      (simp [List.replicate_succ, recordEvents, ih, h]; try omega)

theorem recordEvents_replicate_refErr (c c0 : CollName) (m : Nat) :
    recordEvents c (List.replicate m (Ev.refErr c0))
      = if c0 == c then m else 0 := by
  induction m with
  | zero => simp [recordEvents]
  | succ k ih =>
    rcases h : c0 == c with _ | _ <;>
      (simp [List.replicate_succ, recordEvents, ih, h]; try omega)

theorem recordEvents_parentBatch (c c0 : CollName) (oks : List Bool)
    (ctr : Nat) :
    recordEvents c (parentBatch c0 oks ctr).1
      = if c0 == c then oks.length else 0 := by
  induction oks generalizing ctr with
  | nil => simp [recordEvents, parentBatch]
  | cons ok rest ih =>
    rcases h : c0 == c with _ | _ <;> cases ok <;>
      simp [parentBatch, recordEvents, ih, h] <;> omega

/-- C10: when the captured parent-identifier list is empty (every parent
insert failed), the positional-fallback lookup indexes position 0 of the
empty list and raises inside each dependent record's guarded insert, so
every dependent record yields a logged per-record failure and no insert;
the batch loop still processes all dependent records, the review batch
after it is still processed in full, and the group still reports
success. -/
theorem empty_parent_ids_behavior :
    (∀ (pIds : List Nat) (oks : List Bool) (i ctr : Nat),
      depBatch "Book" [("writtenBy", ([] : List Nat)), ("publishedBy", pIds)]
          oks i ctr
        = (List.replicate oks.length (Ev.refErr "Book"), [], ctr)) ∧
    (∀ (m : Nat) (pOks bOks rOks : List Bool),
      recordEvents "Book"
          (bookGroupRun true true true true (List.replicate m false)
            pOks bOks rOks).1 = bOks.length ∧
      recordEvents "Review"
          (bookGroupRun true true true true (List.replicate m false)
            pOks bOks rOks).1 = rOks.length ∧
      (bookGroupRun true true true true (List.replicate m false)
        pOks bOks rOks).2 = true) := by
  constructor
  · intro pIds oks i ctr
    exact depBatch_firstEmpty "Book" "writtenBy" [("publishedBy", pIds)] oks i ctr
  · intro m pOks bOks rOks
    simp only [bookGroupRun, Bool.not_true, Bool.false_eq_true, if_false,
      parentBatch_allFail]
    rw [depBatch_firstEmpty "Book" "writtenBy"
      [("publishedBy", (parentBatch "Publisher" pOks 0).2.1)] bOks 0
      (parentBatch "Publisher" pOks 0).2.2]
    rw [depBatch_firstEmpty "Review" "reviewsBook" [] rOks 0
      (parentBatch "Publisher" pOks 0).2.2]
    simp only [recordEvents_append, recordEvents_replicate_insFail,
      recordEvents_replicate_refErr, recordEvents_parentBatch]
    simp [recordEvents]

/-- C1: the insert of the `i`-th dependent record attaches the `i`-th
captured parent identifier when `i` is within the captured list, and
otherwise the first captured identifier (index 0); concretely, with 2
captured author identifiers and 3 books, the 3rd book is linked to the
1st author identifier. -/
theorem positional_reference_fallback :
    (∀ (ids : List Nat) (i : Nat), i < ids.length → pick ids i = ids[i]?) ∧
    (∀ (ids : List Nat) (i : Nat), ids ≠ [] → ids.length ≤ i →
      pick ids i = ids[0]?) ∧
    (parentBatch "Author" [true, true, false] 0).2.1 = [0, 1] ∧
    bookInsertEvents
        (bookGroupRun true true true true [true, true, false]
          [true, true, true] [true, true, true] []).1
      = [Ev.insOk "Book" 5 [("writtenBy", 0), ("publishedBy", 2)],
         Ev.insOk "Book" 6 [("writtenBy", 1), ("publishedBy", 3)],
         Ev.insOk "Book" 7 [("writtenBy", 0), ("publishedBy", 4)]] := by
  refine ⟨?_, ?_, by decide, by decide⟩
  · intro ids i h
    simp [pick, h]
  · intro ids i hne h
    rw [pick, if_neg (by omega)]

/-- Witness for `positional_reference_fallback`: the in-range and the
out-of-range branch evaluated on concrete inputs. -/
theorem positional_reference_fallback_witness :
    pick [5, 7] 1 = some 7 ∧ pick [5, 7] 9 = some 5 := by
  constructor
  · have h := positional_reference_fallback.1 [5, 7] 1 (by decide)
    exact h.trans (by decide)
  · have h := positional_reference_fallback.2.1 [5, 7] 9 (by decide) (by decide)
    exact h.trans (by decide)

theorem probeAux_calls_le (readyAt : Nat → Bool) (fuel i : Nat) :
    (probeAux readyAt i fuel).2.1 ≤ fuel := by
  induction fuel generalizing i with
  | zero => simp [probeAux]
  | succ f ih =>
    simp only [probeAux]
    by_cases h : readyAt i = true
    · simp [h]
    · simp only [Bool.not_eq_true] at h
      simp only [h, Bool.false_eq_true, if_false]
      have := ih (i + 1)
      omega

theorem probeAux_firstSuccess (j : Nat) :
    ∀ (readyAt : Nat → Bool) (i fuel : Nat), j < fuel →
      readyAt (i + j) = true → (∀ k, k < j → readyAt (i + k) = false) →
      probeAux readyAt i fuel = (true, j + 1, j) := by
  induction j with
  | zero =>
    intro readyAt i fuel hj hready _
    cases fuel with
    | zero => omega
    | succ f =>
      simp only [probeAux]
      rw [if_pos (by simpa using hready)]
  | succ k ih =>
    intro readyAt i fuel hj hready hprev
    cases fuel with
    | zero => omega
    | succ f =>
      simp only [probeAux]
      rw [if_neg (by
        have h0 := hprev 0 (by omega)
        simp only [Nat.add_zero] at h0
        simp [h0])]
      have hr := ih readyAt (i + 1) f (by omega)
        (by rw [show i + 1 + k = i + (k + 1) by omega]; exact hready)
        (fun t ht => by
          have h := hprev (t + 1) (by omega)
          rwa [show i + (t + 1) = i + 1 + t by omega] at h)
      rw [hr]

theorem probeAux_allFail (fuel : Nat) :
    ∀ (readyAt : Nat → Bool) (i : Nat),
      (∀ k, k < fuel → readyAt (i + k) = false) →
      probeAux readyAt i fuel = (false, fuel, fuel) := by
  induction fuel with
  | zero => intro readyAt i _; rfl
  | succ f ih =>
    intro readyAt i hfail
    simp only [probeAux]
    rw [if_neg (by
      have h0 := hfail 0 (by omega)
      simp only [Nat.add_zero] at h0
      simp [h0])]
    rw [ih readyAt (i + 1) (fun t ht => by
      have h := hfail (t + 1) (by omega)
      rwa [show i + (t + 1) = i + 1 + t by omega] at h)]

/-- C6: the readiness probe makes at most 10 listing calls, sleeps the
fixed 2-second delay exactly once after each failed attempt, returns
ready on the first successful call (after which no further attempt is
made), and if all 10 attempts fail the script run ends with exit
status 1. -/
theorem readiness_probe_bounded_retry :
    retryLimit = 10 ∧ retryDelaySec = 2 ∧
    (∀ readyAt : Nat → Bool, (probe readyAt).2.1 ≤ 10) ∧
    (∀ (readyAt : Nat → Bool) (j : Nat), j < 10 → readyAt j = true →
      (∀ k, k < j → readyAt k = false) → probe readyAt = (true, j + 1, j)) ∧
    (∀ (readyAt : Nat → Bool) (bodyFails : Bool),
      (∀ k, k < 10 → readyAt k = false) →
      (probe readyAt).1 = false ∧
      (advancedRun true readyAt bodyFails).exitCode = 1) ∧
    (∀ (readyAt : Nat → Bool) (verifyOnly : Bool) (jc jd : Bool)
      (jOks : List Bool) (ca cp cb cr : Bool)
      (aOks pOks bOks rOks : List Bool) (cu cg ci skipGh : Bool)
      (users : List UserO) (listAll : Option (List String))
      (countOk : String → Bool) (nestedOk refOk : Bool),
      (∀ k, k < 10 → readyAt k = false) →
      (mainRun verifyOnly true readyAt jc jd jOks ca cp cb cr aOks pOks bOks
        rOks cu cg ci skipGh users listAll countOk nestedOk refOk).2 = 1) := by
  refine ⟨rfl, rfl, ?_, ?_, ?_, ?_⟩
  · intro readyAt
    exact probeAux_calls_le readyAt 10 0
  · intro readyAt j hj hready hprev
    have h := probeAux_firstSuccess j readyAt 0 10 hj
      (by simpa using hready) (fun k hk => by simpa using hprev k hk)
    exact h
  · intro readyAt bodyFails hfail
    have h := probeAux_allFail 10 readyAt 0 (fun k hk => by simpa using hfail k hk)
    have h1 : (probe readyAt).1 = false := by rw [probe, retryLimit, h]
    exact ⟨h1, by simp [advancedRun, h1]⟩
  · intro readyAt verifyOnly jc jd jOks ca cp cb cr aOks pOks bOks rOks cu cg
      ci skipGh users listAll countOk nestedOk refOk hfail
    have h := probeAux_allFail 10 readyAt 0 (fun k hk => by simpa using hfail k hk)
    have h1 : (probe readyAt).1 = false := by rw [probe, retryLimit, h]
    simp [mainRun, h1]

/-- Witness for `readiness_probe_bounded_retry`: a probe that first
succeeds on the 4th attempt makes exactly 4 calls and 3 sleeps, and an
always-failing probe makes the run exit 1. -/
theorem readiness_probe_bounded_retry_witness :
    probe (fun k => k == 3) = (true, 4, 3) ∧
      (advancedRun true (fun _ => false) false).exitCode = 1 := by
  constructor
  · exact readiness_probe_bounded_retry.2.2.2.1 (fun k => k == 3) 3
      (by decide) (by decide) (by decide)
  · exact (readiness_probe_bounded_retry.2.2.2.2.1 (fun _ => false) false
      (by decide)).2

/-- Counterexample to C8: when the connection succeeds but the readiness
budget is exhausted, the script calls `exit(1)` at module scope before
the `try/finally` block, so the acquired connection handle is never
closed — refuting "closed before the process exits on every terminating
path". -/
theorem unclosed_handle_on_readiness_exhaustion :
    (advancedRun true (fun _ => false) false).connected = true ∧
    (advancedRun true (fun _ => false) false).closed = false ∧
    (advancedRun true (fun _ => false) false).exitCode = 1 :=
  ⟨rfl, rfl, rfl⟩

/-- C8 (amended): once the readiness probe has succeeded, the script body
runs inside the `try/finally` and the connection handle is closed on both
the success and the failure path; the readiness-exhaustion path (and a
failed connection attempt) are the exceptions. -/
theorem connection_closed_after_ready (readyAt : Nat → Bool)
    (bodyFails : Bool) (h : (probe readyAt).1 = true) :
    (advancedRun true readyAt bodyFails).connected = true ∧
    (advancedRun true readyAt bodyFails).closed = true := by
  cases bodyFails <;> simp [advancedRun, h]

/-- Witness for `connection_closed_after_ready`: an immediately-ready
service, with both a failing and a succeeding body. -/
theorem connection_closed_after_ready_witness :
    (advancedRun true (fun _ => true) true).closed = true ∧
    (advancedRun true (fun _ => true) false).closed = true :=
  ⟨(connection_closed_after_ready (fun _ => true) true (by decide)).2,
    (connection_closed_after_ready (fun _ => true) false (by decide)).2⟩

/-- Counterexample to C4: in `--verify-only` mode a failure of the
verification step (listing the collections raises, so
`verify_collections` returns `False`) makes the process exit 1, while the
same run with a succeeding listing exits 0 — verification does affect the
exit code in that mode. -/
theorem verify_only_exit_on_list_failure :
    (mainRun true true (fun _ => true) true true [] true true true true
        [] [] [] [] true true true true [] none (fun _ => true) true true).2
      = 1 ∧
    (mainRun true true (fun _ => true) true true [] true true true true
        [] [] [] [] true true true true [] (some []) (fun _ => true) true
        true).2 = 0 :=
  ⟨rfl, rfl⟩

/-- C4 (amended): failures of the three verification query kinds (count
aggregation, nested-field fetch, reference traversal) are downgraded to
warnings — `verify_collections` still returns `True` — and their outcomes
never influence the exit code in any mode; only a failure of the
collection-listing step makes verification report failure, which affects
the exit code in `--verify-only` mode alone. -/
theorem verify_query_failures_warn_only :
    (∀ (names : List String) (countOk : String → Bool) (nestedOk refOk : Bool),
      (verifyCollections (some names) countOk nestedOk refOk).1 = true) ∧
    (∀ (verifyOnly connectOk : Bool) (readyAt : Nat → Bool) (jc jd : Bool)
      (jOks : List Bool) (ca cp cb cr : Bool)
      (aOks pOks bOks rOks : List Bool) (cu cg ci skipGh : Bool)
      (users : List UserO) (names : List String) (countOk : String → Bool)
      (nestedOk refOk : Bool),
      mainRun verifyOnly connectOk readyAt jc jd jOks ca cp cb cr aOks pOks
          bOks rOks cu cg ci skipGh users (some names) countOk nestedOk refOk
        = mainRun verifyOnly connectOk readyAt jc jd jOks ca cp cb cr aOks
          pOks bOks rOks cu cg ci skipGh users (some names) (fun _ => true)
          true true) := by
  constructor
  · intro names countOk nestedOk refOk
    rfl
  · intro verifyOnly connectOk readyAt jc jd jOks ca cp cb cr aOks pOks bOks
      rOks cu cg ci skipGh users names countOk nestedOk refOk
    simp [mainRun, verifyCollections]

theorem createAttempted_append (c : CollName) (l₁ l₂ : List Ev) :
    createAttempted c (l₁ ++ l₂)
      = (createAttempted c l₁ || createAttempted c l₂) := by
  simp [createAttempted, List.any_append]

theorem bookGroupRun_author_attempted (ca cp cb cr : Bool)
    (aOks pOks bOks rOks : List Bool) :
    createAttempted "Author" (bookGroupRun ca cp cb cr aOks pOks bOks rOks).1
      = true := by
  cases ca <;> cases cp <;> cases cb <;> cases cr <;>
    simp [bookGroupRun, createAttempted]

theorem githubGroupRun_user_attempted (cu cg ci skipGh : Bool)
    (users : List UserO) :
    createAttempted "GitHubUser" (githubGroupRun cu cg ci skipGh users).1
      = true := by
  cases cu <;> cases cg <;> cases ci <;> cases skipGh <;>
    simp [githubGroupRun, createAttempted]

/-- Counterexample to C3: if the Author creation fails, the whole book
group stops at once — the Publisher, Book and Review creations are never
attempted in that run, refuting "every subsequent collection in the run
still has its creation attempted". -/
theorem create_failure_skips_rest_of_group :
    (bookGroupRun false true true true [true, true, true] [true, true, true]
        [true, true, true] [true, true, true]).1 = [Ev.createFail "Author"] ∧
    createAttempted "Publisher"
        (bookGroupRun false true true true [true, true, true]
          [true, true, true] [true, true, true] [true, true, true]).1
      = false ∧
    (bookGroupRun false true true true [true, true, true] [true, true, true]
        [true, true, true] [true, true, true]).2 = false := by
  refine ⟨rfl, by decide, rfl⟩

/-- C3 (amended): a collection-creation failure is caught and logged and
clears that group's success flag; the remaining collections of the same
group are skipped, but every subsequent collection group still has its
creations attempted, and the run ends with exit code 1.  Shown here with
the Jeopardy creation failing: the book and GitHub groups are still
attempted. -/
theorem create_failure_isolated_to_group (jd : Bool) (jOks : List Bool)
    (ca cp cb cr : Bool) (aOks pOks bOks rOks : List Bool)
    (cu cg ci skipGh : Bool) (users : List UserO)
    (listAll : Option (List String)) (countOk : String → Bool)
    (nestedOk refOk : Bool) :
    createAttempted "Author"
        (mainRun false true (fun _ => true) false jd jOks ca cp cb cr aOks
          pOks bOks rOks cu cg ci skipGh users listAll countOk nestedOk
          refOk).1 = true ∧
    createAttempted "GitHubUser"
        (mainRun false true (fun _ => true) false jd jOks ca cp cb cr aOks
          pOks bOks rOks cu cg ci skipGh users listAll countOk nestedOk
          refOk).1 = true ∧
    (mainRun false true (fun _ => true) false jd jOks ca cp cb cr aOks pOks
        bOks rOks cu cg ci skipGh users listAll countOk nestedOk refOk).2
      = 1 := by
  have hp : (probe (fun _ => true)).1 = true := rfl
  simp only [mainRun, hp, Bool.not_true, Bool.not_false, Bool.false_eq_true,
    if_false, if_true, jeopardyGroup, createAttempted_append]
  simp [bookGroupRun_author_attempted, githubGroupRun_user_attempted,
    jeopardyGroup]

theorem issueLoop_events_le (l : List IssueO) (uid rid ctr : Nat) :
    (issueLoop uid rid l ctr).1.length ≤ l.length := by
  induction l generalizing ctr with
  | nil => simp [issueLoop]
  | cons io rest ih =>
    rcases io with ⟨isPR, ok⟩
    cases isPR with
    | true =>
      have := ih ctr
      simp only [issueLoop, if_true, List.length_cons]
      omega
    | false =>
      cases ok with
      | true =>
        have := ih (ctr + 1)
        simp only [issueLoop, Bool.false_eq_true, if_false, if_true,
          List.length_cons]
        omega
      | false =>
        have := ih ctr
        simp only [issueLoop, Bool.false_eq_true, if_false,
          List.length_cons]
        omega

theorem recordEvents_repo_issueLoop (l : List IssueO) (uid rid ctr : Nat) :
    recordEvents "GitHubRepo" (issueLoop uid rid l ctr).1 = 0 := by
  induction l generalizing ctr with
  | nil => rfl
  | cons io rest ih =>
    rcases io with ⟨isPR, ok⟩
    cases isPR <;> cases ok <;> simp [issueLoop, recordEvents, ih]

theorem recordEvents_repoLoop (rs : List RepoO) (uid ctr : Nat) :
    recordEvents "GitHubRepo" (repoLoop uid rs ctr).1 = rs.length := by
  induction rs generalizing ctr with
  | nil => rfl
  | cons ro rest ih =>
    rcases ro with ⟨ok, ifetch, issues⟩
    cases ok with
    | false =>
      simp [repoLoop, recordEvents, ih]
      omega
    | true =>
      cases ifetch with
      | true =>
        simp [repoLoop, recordEvents, recordEvents_append,
          recordEvents_repo_issueLoop, ih]
        omega
      | false =>
        simp [repoLoop, recordEvents, recordEvents_append, ih]
        omega

/-- Counterexample to C2: pull requests do consume the issue limit.  The
slice `issues_data[:1]` is taken before the pull-request check, so with a
pull request first and a genuine issue second the loop inserts zero
issues, while the claimed policy ("skipped rather than counted toward
the issue limit", limit 2) would insert the genuine issue. -/
theorem pr_consumes_issue_slot :
    (issueLoop 0 1 (([⟨true, true⟩, ⟨false, true⟩] : List IssueO).take 1) 2).1
      = [] ∧
    issuesInsertedSpecModel [⟨true, true⟩, ⟨false, true⟩] = 1 :=
  ⟨rfl, rfl⟩

/-- C2 (amended): per username at most 2 repositories are inserted (the
loop slices the fetched list to `[:2]`), per repository at most 1 issue
element is even considered (slice `[:1]`), a pull-request element is
skipped and never inserted, and the skipped element still occupies its
slot of the sliced issue list. -/
theorem github_limits_and_pr_skip :
    (∀ (uid rid ctr : Nat) (issues : List IssueO),
      (issueLoop uid rid (issues.take 1) ctr).1.length ≤ 1) ∧
    (∀ (uid rid ctr : Nat) (b : Bool),
      issueLoop uid rid [⟨true, b⟩] ctr = ([], ctr)) ∧
    (∀ (uid ctr : Nat) (repos : List RepoO),
      recordEvents "GitHubRepo" (repoLoop uid (repos.take 2) ctr).1 ≤ 2) := by
  refine ⟨?_, ?_, ?_⟩
  · intro uid rid ctr issues
    have h1 := issueLoop_events_le (issues.take 1) uid rid ctr
    have h2 : (issues.take 1).length ≤ 1 := by
      simp [List.length_take]
    omega
  · intro uid rid ctr b
    rfl
  · intro uid ctr repos
    rw [recordEvents_repoLoop]
    simp [List.length_take]
